import Mathlib

/-!
Verification of the mgijax/pdfdownload harvesting pipeline.

Shallow embedding of the Python sources:
  * lib/python/XmlReader.py   (minimal streaming XML parser)
  * shared/MapCache.py        (persistent key/value cache)
  * elsevier/download_elsevier_papers.py (date normalization, window test,
    per-record classification)
  * pmc/backPopulate.py       (article filtering, download outcome check,
    retry-count accumulation)

Python strings are modelled as `List Char` (or `String`, whose data is a
`List Char`); machine-level I/O is modelled at the value level (a file is its
list of lines, justified where used by the no-newline preconditions);
exceptions are modelled by `Option`/`Except` result types.
-/

namespace PdfDownload

/-! ### Python string primitives -/

/-- Python substring containment: the result of the test `hay.find(needle) >= 0`,
implemented as the usual scan over every suffix. -/
def containsSub (needle : List Char) : List Char → Bool
  | [] => needle.isPrefixOf []
  | c :: rest => needle.isPrefixOf (c :: rest) || containsSub needle rest

/-- Python lexicographic string comparison `x <= y` on code points. -/
def pyLe : List Char → List Char → Bool
  | [], _ => true
  | _ :: _, [] => false
  | a :: as, b :: bs => if a = b then pyLe as bs else decide (a.val < b.val)

/-- Python whitespace (the characters matched by `str.strip()` and `\s` for
the ASCII data handled by this system). -/
def isPySpace (c : Char) : Bool :=
  c = ' ' || c = '\t' || c = '\n' || c = '\r' || c = '\x0b' || c = '\x0c'

/-- Python `str.strip()`: drop leading and trailing whitespace. -/
def pyStrip (s : List Char) : List Char :=
  ((s.dropWhile isPySpace).reverse.dropWhile isPySpace).reverse

/-- Python dict assignment `d[k] = v` on an insertion-ordered association
list: replace the value of an existing key, otherwise append. -/
def dictInsert {α β : Type} [DecidableEq α] (m : List (α × β)) (k : α) (v : β) :
    List (α × β) :=
  match m with
  | [] => [(k, v)]
  | (k0, v0) :: rest =>
      if k0 = k then (k0, v) :: rest else (k0, v0) :: dictInsert rest k v

/-- Python dict lookup `d.get(k)` on an association list. -/
def dictGet {α β : Type} [DecidableEq α] (m : List (α × β)) (k : α) : Option β :=
  match m with
  | [] => none
  | (k0, v0) :: rest => if k0 = k then some v0 else dictGet rest k

/-- Numeric value of a digit string, as Python int() on it. -/
def natOfDigits (ds : List Char) : Nat :=
  ds.foldl (fun n c => n * 10 + (c.toNat - 48)) 0

/-! ### XmlReader.py : the Element tree -/

/-- Parse-tree node of XmlReader.py: tag name, attribute list (insertion
ordered, unique keys), child list in document order, optional text. -/
inductive Element : Type where
  | mk (tag : String) (attrib : List (String × String))
       (children : List Element) (text : Option String)

def Element.tag : Element → String
  | .mk t _ _ _ => t

def Element.attrib : Element → List (String × String)
  | .mk _ a _ _ => a

def Element.children : Element → List Element
  | .mk _ _ cs _ => cs

def Element.text : Element → Option String
  | .mk _ _ _ tx => tx

/-- Element.addElement: append a child. -/
def Element.addElement : Element → Element → Element
  | .mk t a cs tx, e => .mk t a (cs ++ [e]) tx

/-- Element.setText: overwrite the text field. -/
def Element.setText : Element → String → Element
  | .mk t a cs _, s => .mk t a cs (some s)

/-- Element.findall: all direct children with the given tag, accumulated in
document order exactly as the Python loop does. -/
def Element.findall (e : Element) (t : String) : List Element :=
  e.children.foldl (fun subset child => if child.tag = t then subset ++ [child] else subset) []

/-- Element.find: first entry of findall, or None. -/
def Element.find (e : Element) (t : String) : Option Element :=
  match e.findall t with
  | [] => none
  | x :: _ => some x

/-! ### download_elsevier_papers.py : window membership -/

/-- isWithin from download_elsevier_papers.py: the pubDate is not None and
lies between startDate and stopDate inclusive, under Python string
comparison. -/
def isWithin (pubDate : Option String) (startDate stopDate : String) : Bool :=
  match pubDate with
  | none => false
  | some p => pyLe startDate.data p.data && pyLe p.data stopDate.data

/-- Digit test matching the regex class [0-9]. -/
def isDigitCh (c : Char) : Bool :=
  48 ≤ c.toNat && c.toNat ≤ 57

/-- Numeric value of a digit character. -/
def digitVal (c : Char) : Nat :=
  c.toNat - 48

/-- A real zero-padded calendar date usable as a window endpoint: ten
characters shaped YYYY-MM-DD with a numeric year below 9999. -/
def isRealStopDate (e : String) : Bool :=
  match e.data with
  | [y1, y2, y3, y4, h1, m1, m2, h2, d1, d2] =>
      isDigitCh y1 && isDigitCh y2 && isDigitCh y3 && isDigitCh y4 &&
      h1 = '-' && h2 = '-' &&
      isDigitCh m1 && isDigitCh m2 && isDigitCh d1 && isDigitCh d2 &&
      decide (digitVal y1 * 1000 + digitVal y2 * 100 + digitVal y3 * 10 + digitVal y4 < 9999)
  | _ => false

/-! ### pmc/backPopulate.py : download outcome check -/

/-- checkPdfCmd from backPopulate.py. The captured stdout is the list of
output lines handed back by the dispatcher. A non-zero return code always
falls into the reporting branch and returns False; the message comparisons
there only choose which diagnostic is logged. Indexing stdout[0] on an empty
stdout raises IndexError, modelled as none. A zero return code returns
True unconditionally. -/
def checkPdfCmd (retcode : Int) (stdout stderr : List String) : Option Bool :=
  if retcode ≠ 0 then
    match stdout with
    | [] => none
    | line0 :: _ =>
        if line0 = "Error: no PDF found in gzip file\n" then some false
        else if containsSub "curl did not complete".data line0.data then some false
        else some false
  else some true

/-! ### pmc/backPopulate.py : NoPdfWriter retry bookkeeping -/

/-- Alternation (?:\d+|-) of the failure-report line regex: one-or-more
digits (greedily), otherwise a single dash; returns the unconsumed rest. -/
def parseIntOrDash (s : List Char) : Option (List Char) :=
  if (s.takeWhile isDigitCh).isEmpty then
    match s with
    | '-' :: r => some r
    | _ => none
  else some (s.dropWhile isDigitCh)

/-- Dash alternative of the date field. -/
def parseDash (s : List Char) : Option (List Char) :=
  match s with
  | '-' :: r => some r
  | _ => none

/-- Alternation (?:(?:\d{4}/\d{2}/\d{2})|-) of the failure-report line
regex; returns the unconsumed rest. -/
def parseDateOrDash (s : List Char) : Option (List Char) :=
  match s with
  | a :: b :: c :: d :: s1 :: e :: f :: s2 :: g :: h :: r =>
      if isDigitCh a && isDigitCh b && isDigitCh c && isDigitCh d && s1 = '/' &&
         isDigitCh e && isDigitCh f && s2 = '/' && isDigitCh g && isDigitCh h then
        some r
      else parseDash s
  | _ => parseDash s

/-- Match of the NoPdfWriter._getPrevFailures line regex
\A\s*(\d+)\s+(?:\d+|-)\s+(?:(?:\d{4}/\d{2}/\d{2})|-)\s+\d+\s+(\d+)\s+.+\Z
against a newline-free report line, returning (PMCID group, download_tries
group as int). The final \s+.+\Z on a newline-free suffix holds exactly
when the suffix starts with whitespace and has at least two characters. -/
def parseArticleLine (line : List Char) : Option (List Char × Nat) :=
  let s0 := line.dropWhile isPySpace
  let pmcid := s0.takeWhile isDigitCh
  if pmcid.isEmpty then none else
  let s1 := s0.dropWhile isDigitCh
  if (s1.takeWhile isPySpace).isEmpty then none else
  match parseIntOrDash (s1.dropWhile isPySpace) with
  | none => none
  | some s3 =>
    if (s3.takeWhile isPySpace).isEmpty then none else
    match parseDateOrDash (s3.dropWhile isPySpace) with
    | none => none
    | some s5 =>
      if (s5.takeWhile isPySpace).isEmpty then none else
      let s6 := s5.dropWhile isPySpace
      if (s6.takeWhile isDigitCh).isEmpty then none else
      let s7 := s6.dropWhile isDigitCh
      if (s7.takeWhile isPySpace).isEmpty then none else
      let s8 := s7.dropWhile isPySpace
      let tries := s8.takeWhile isDigitCh
      if tries.isEmpty then none else
      match s8.dropWhile isDigitCh with
      | c1 :: _ :: _ => if isPySpace c1 then some (pmcid, natOfDigits tries) else none
      | _ => none

/-- NoPdfWriter._getPrevFailures: fold the previous report's lines into the
pmcid -> download_tries dictionary (later lines overriding earlier). -/
def getPrevFailures (lines : List (List Char)) : List (List Char × Nat) :=
  lines.foldl (fun prev line =>
    match parseArticleLine line with
    | some (pmcid, tries) => dictInsert prev pmcid tries
    | none => prev) []

/-- The count written by NoPdfWriter._formatArticleTable for an article that
failed again this run: self.prevFailures.get(article.pmcid, 0) + 1. -/
def triesCount (prevFailures : List (List Char × Nat)) (pmcid : List Char) : Nat :=
  (dictGet prevFailures pmcid).getD 0 + 1

/-! ### download_elsevier_papers.py : date normalization -/

/-- Character class [A-Z]. -/
def isUpperCh (c : Char) : Bool :=
  65 ≤ c.toNat && c.toNat ≤ 90

/-- Character class [a-z]. -/
def isLowerCh (c : Char) : Bool :=
  97 ≤ c.toNat && c.toNat ≤ 122

/-- monthMap from download_elsevier_papers.py: month number and default day
number (used when the day is not specified), looked up by the three-letter
month abbreviation; a missing key is a Python KeyError, modelled none. -/
def monthMap (m : String) : Option (String × String) :=
  if m = "Jan" then some ("01", "31")
  else if m = "Feb" then some ("02", "28")
  else if m = "Mar" then some ("03", "31")
  else if m = "Apr" then some ("04", "30")
  else if m = "May" then some ("05", "31")
  else if m = "Jun" then some ("06", "30")
  else if m = "Jul" then some ("07", "31")
  else if m = "Aug" then some ("08", "31")
  else if m = "Sep" then some ("09", "30")
  else if m = "Oct" then some ("10", "31")
  else if m = "Nov" then some ("11", "30")
  else if m = "Dec" then some ("12", "31")
  else none

/-- Anchored match of pmDate1 = ([0-9]\x7b4\x7d) ([A-Z][a-z]\x7b2\x7d)[-]([A-Z][a-z]\x7b2\x7d)
returning (group 1, group 3); trailing input is permitted, as with re.match. -/
def pmDate1Match (s : List Char) : Option (List Char × List Char) :=
  match s with
  | y1 :: y2 :: y3 :: y4 :: sp :: a1 :: a2 :: a3 :: da :: b1 :: b2 :: b3 :: _ =>
      if isDigitCh y1 && isDigitCh y2 && isDigitCh y3 && isDigitCh y4 && sp = ' ' &&
         isUpperCh a1 && isLowerCh a2 && isLowerCh a3 && da = '-' &&
         isUpperCh b1 && isLowerCh b2 && isLowerCh b3 then
        some ([y1, y2, y3, y4], [b1, b2, b3])
      else none
  | _ => none

/-- Anchored match of pmDate2 = ([0-9]\x7b4\x7d) ([A-Z][a-z]\x7b2\x7d) ([0-9]\x7b1,2\x7d)
returning (group 1, group 2, group 3), the day taken greedily as two digits
when a second digit follows; trailing input is permitted. -/
def pmDate2Match (s : List Char) : Option (List Char × List Char × List Char) :=
  match s with
  | y1 :: y2 :: y3 :: y4 :: sp :: m1 :: m2 :: m3 :: sp2 :: d1 :: rest =>
      if isDigitCh y1 && isDigitCh y2 && isDigitCh y3 && isDigitCh y4 && sp = ' ' &&
         isUpperCh m1 && isLowerCh m2 && isLowerCh m3 && sp2 = ' ' && isDigitCh d1 then
        match rest with
        | d2 :: _ =>
            if isDigitCh d2 then some ([y1, y2, y3, y4], [m1, m2, m3], [d1, d2])
            else some ([y1, y2, y3, y4], [m1, m2, m3], [d1])
        | [] => some ([y1, y2, y3, y4], [m1, m2, m3], [d1])
      else none
  | _ => none

/-- Anchored match of pmDate3 = ([0-9]\x7b4\x7d) ([A-Z][a-z]\x7b2\x7d)
returning (group 1, group 2); trailing input is permitted. -/
def pmDate3Match (s : List Char) : Option (List Char × List Char) :=
  match s with
  | y1 :: y2 :: y3 :: y4 :: sp :: m1 :: m2 :: m3 :: _ =>
      if isDigitCh y1 && isDigitCh y2 && isDigitCh y3 && isDigitCh y4 && sp = ' ' &&
         isUpperCh m1 && isLowerCh m2 && isLowerCh m3 then
        some ([y1, y2, y3, y4], [m1, m2, m3])
      else none
  | _ => none

/-- Left-pad of the day group: if len(dd) == 1 then prepend a zero. -/
def padDay (d : List Char) : List Char :=
  if d.length = 1 then '0' :: d else d

/-- getStandardDateFormat from download_elsevier_papers.py: convert a PubMed
date to yyyy-mm-dd, trying pmDate1 (month range, second month used), then
pmDate2 (exact day, padded), then pmDate3 (month only, default day), with
the bogus default 9999-99-99 for None and for unmatched input. A month
token absent from monthMap raises KeyError, modelled none. -/
def getStandardDateFormat (pmd : Option String) : Option String :=
  match pmd with
  | none => some "9999-99-99"
  | some s =>
    match pmDate1Match s.data with
    | some (yyyy, mon2) =>
        match monthMap (String.mk mon2) with
        | some (mm, dd) => some (String.mk yyyy ++ "-" ++ mm ++ "-" ++ dd)
        | none => none
    | none =>
      match pmDate2Match s.data with
      | some (yyyy, mon, day) =>
          match monthMap (String.mk mon) with
          | some (mm, _) => some (String.mk yyyy ++ "-" ++ mm ++ "-" ++ String.mk (padDay day))
          | none => none
      | none =>
        match pmDate3Match s.data with
        | some (yyyy, mon) =>
            match monthMap (String.mk mon) with
            | some (mm, dd) => some (String.mk yyyy ++ "-" ++ mm ++ "-" ++ dd)
            | none => none
        | none => some "9999-99-99"

/-! ### Classification of records (pmc/backPopulate.py and
download_elsevier_papers.py) -/

/-- Article-type allow list from PMCfileRangler.articleTypes: True if the
type is wanted, False if known but unwanted. -/
def articleTypes : List (String × Bool) :=
  [("research-article", true), ("review-article", true), ("other", true),
   ("correction", true), ("editorial", false), ("article-commentary", false),
   ("brief-report", true), ("case-report", true), ("letter", true),
   ("discussion", true), ("retraction", true), ("oration", true),
   ("reply", true), ("news", true), ("expression-of-concern", true),
   ("meeting-report", false), ("methods-article", false), ("addendum", false),
   ("systematic-review", false)]

/-- Outcome of PMCfileRangler._wantArticle, named after the reporter call
made on each exclusion path. -/
inductive PMCClass : Type where
  | skipNoPMID
  | skipInMgi
  | skipWrongType
  | skipNewType
  | want
deriving DecidableEq

/-- PMCfileRangler._wantArticle: skip an article with a falsy (absent or
empty) PMID, then one already in MGI, then one of a known-but-unwanted
type, then one of a never-seen type; otherwise want it. -/
def wantArticle (mgiSet : List String) (pmid : Option String) (atype : String) : PMCClass :=
  match pmid with
  | none => .skipNoPMID
  | some p =>
      if p = "" then .skipNoPMID
      else if mgiSet.contains p then .skipInMgi
      else
        match dictGet articleTypes atype with
        | some wanted => if !wanted then .skipWrongType else .want
        | none => .skipNewType

/-- Trigger of the no-secondary-identifier rule for a PMC record. -/
def pmcNoIdTrig (pmid : Option String) : Bool :=
  match pmid with
  | none => true
  | some p => p = ""

/-- Trigger of the already-in-authority-store rule for a PMC record. -/
def pmcKnownTrig (mgiSet : List String) (pmid : Option String) : Bool :=
  mgiSet.contains (pmid.getD "")

/-- Trigger of the known-but-unwanted-type rule. -/
def pmcUnwantedTrig (atype : String) : Bool :=
  dictGet articleTypes atype == some false

/-- Trigger of the never-seen-type rule. -/
def pmcNewTrig (atype : String) : Bool :=
  dictGet articleTypes atype == none

/-- Classification following the claim's words for the PMC rules, in the
claimed fixed order with first matching exclusion winning. -/
def pmcClaimClassify (mgiSet : List String) (pmid : Option String) (atype : String) : PMCClass :=
  if pmcNoIdTrig pmid then .skipNoPMID
  else if pmcKnownTrig mgiSet pmid then .skipInMgi
  else if pmcUnwantedTrig atype then .skipWrongType
  else if pmcNewTrig atype then .skipNewType
  else .want

/-- Outcome of one pass of the per-record loop in downloadPapers of
download_elsevier_papers.py, named after the counter or list the record
lands in. -/
inductive ElsClass : Type where
  | wrongJournal
  | inMGI
  | beyondStop
  | noID
  | download
deriving DecidableEq

/-- PubMed ID resolution in the downloadPapers loop: the cached value for
this pii when present, otherwise the value reported by SciDirect (with
'no PMID' standing for an unresolvable ID). -/
def resolvePmid (pmidCache : List (String × String)) (pii rPmid : String) : String :=
  match dictGet pmidCache pii with
  | some v => v
  | none => rPmid

/-- Per-record classification of the downloadPapers loop: wrong journal
first, then already-in-MGI, then the window test on the publication date
looked up from this run's PubMed date dictionary (records without an entry
have no date), inside which a record without a PubMed ID is counted as
noID; records failing the window test are counted beyondStop. -/
def elsClassify (longName rJournal pii rPmid : String)
    (pmidCache : List (String × String)) (mgiSet : List String)
    (publicationDates : List (String × String)) (startDate stopDate : String) : ElsClass :=
  if rJournal ≠ longName then .wrongJournal
  else
    let pmid := resolvePmid pmidCache pii rPmid
    if mgiSet.contains pmid then .inMGI
    else
      let pubDate := dictGet publicationDates pmid
      if isWithin pubDate startDate stopDate then
        if pmid ≠ "no PMID" then .download else .noID
      else .beyondStop

/-- Classification following the claim's words for the Elsevier loop: the
claimed fixed order wrong-journal, no-secondary-identifier, already-known,
outside-window, first matching exclusion winning (the type rule does not
exclude in this loop). -/
def elsClaimClassify (longName rJournal pii rPmid : String)
    (pmidCache : List (String × String)) (mgiSet : List String)
    (publicationDates : List (String × String)) (startDate stopDate : String) : ElsClass :=
  let pmid := resolvePmid pmidCache pii rPmid
  if rJournal ≠ longName then .wrongJournal
  else if pmid = "no PMID" then .noID
  else if mgiSet.contains pmid then .inMGI
  else if ¬ (isWithin (dictGet publicationDates pmid) startDate stopDate = true) then .beyondStop
  else .download

/-- First-match presentation of the order the Elsevier loop actually
applies: wrong-journal, already-known, outside-window, and only then the
missing-identifier rule. -/
def elsPriorityClassify (longName rJournal pii rPmid : String)
    (pmidCache : List (String × String)) (mgiSet : List String)
    (publicationDates : List (String × String)) (startDate stopDate : String) : ElsClass :=
  let pmid := resolvePmid pmidCache pii rPmid
  if rJournal ≠ longName then .wrongJournal
  else if mgiSet.contains pmid then .inMGI
  else if ¬ (isWithin (dictGet publicationDates pmid) startDate stopDate = true) then .beyondStop
  else if pmid = "no PMID" then .noID
  else .download

/-! ### shared/MapCache.py : delimiter selection and the flat-file format -/

/-- Candidate delimiter alphabet of MapCache._findDelimiter (as in the
source, the letter q is absent). -/
def delimiterChars : List Char :=
  " ,.;:-_=+[]\x7b\x7d|!@#$%^&*()0123456789abcdefghijklmnoprstuvwxyz".data

/-- Last candidate character, chars[-1] in the source. -/
def delimiterCharsLast : Char :=
  delimiterChars.getLastD ' '

/-- Inner loop of MapCache._findDelimiter: try delim+c for each candidate
character c in order, returning the first trial contained in none of the
stored strings. -/
def findTrial (strings : List (List Char)) (delim : List Char) : List Char → Option (List Char)
  | [] => none
  | c :: cs =>
      if strings.any (fun s => containsSub (delim ++ [c]) s) then findTrial strings delim cs
      else some (delim ++ [c])

/-- Outer loop of MapCache._findDelimiter: whenever a whole round of
candidates fails, append chars[-1] to the current delimiter and retry. The
Python loop has no bound; the explicit fuel supplied by findDelimiter is
enough that it is never exhausted (see the delimiter-selection theorem). -/
def findDelimiterAux (strings : List (List Char)) : Nat → List Char → Option (List Char)
  | 0, _ => none
  | fuel + 1, delim =>
      match findTrial strings delim delimiterChars with
      | some trial => some trial
      | none => findDelimiterAux strings fuel (delim ++ [delimiterCharsLast])

/-- Length of the longest stored string. -/
def maxLen (strings : List (List Char)) : Nat :=
  (strings.map List.length).foldr Nat.max 0

/-- MapCache._findDelimiter over the cache contents, the stored strings
being list(keys()) + list(values()). -/
def findDelimiter (contents : List (List Char × List Char)) : Option (List Char) :=
  let strings := contents.map Prod.fst ++ contents.map Prod.snd
  findDelimiterAux strings (maxLen strings + 1) []

/-- Python str.split(sep) for a non-empty separator: scan left to right,
splitting at each non-overlapping occurrence. The fuel is one more than the
number of characters still to scan, so it is never exhausted. -/
def splitAux (sep : List Char) : Nat → List Char → List Char → List (List Char)
  | 0, _, acc => [acc.reverse]
  | fuel + 1, s, acc =>
      match s with
      | [] => [acc.reverse]
      | c :: rest =>
          if sep.isPrefixOf (c :: rest) then
            acc.reverse :: splitAux sep fuel ((c :: rest).drop sep.length) []
          else splitAux sep fuel rest (c :: acc)

/-- Python line.split(delimiter). -/
def pySplit (sep s : List Char) : List (List Char) :=
  splitAux sep (s.length + 1) s []

/-- MapCache.save, modelled at the level of the lines written (each line is
written with a trailing newline which _load strips back off; keys and
values are newline-free, so the file is faithfully represented by its line
list): the delimiter line, then one key-delimiter-value line per entry in
dict insertion order. The impossible fuel exhaustion of the delimiter
search surfaces as none. -/
def save (contents : List (List Char × List Char)) : Option (List (List Char)) :=
  (findDelimiter contents).map
    (fun d => d :: contents.map (fun kv => kv.1 ++ d ++ kv.2))

/-- Body of the _load line loop: split a line on the delimiter and store
columns[0] -> columns[1] whenever the split yields more than one column. -/
def loadStep (dline : List Char) (contents : List (List Char × List Char))
    (line : List Char) : List (List Char × List Char) :=
  match pySplit dline line with
  | c0 :: c1 :: _ => dictInsert contents c0 c1
  | _ => contents

/-- MapCache._load on the lines of the backing file: an empty file is an
empty cache; otherwise the first line is the delimiter and every later
line goes through loadStep. -/
def load (lines : List (List Char)) : List (List Char × List Char) :=
  match lines with
  | [] => []
  | dline :: rest => rest.foldl (loadStep dline) []

/-- Saving and then loading a fresh cache from the same lines. -/
def saveLoad (contents : List (List Char × List Char)) : Option (List (List Char × List Char)) :=
  (save contents).map load

/-- Absence of a delimiter occurrence straddling the start of an entry's
line: no occurrence of the delimiter in key-delimiter-value begins inside
the key. -/
def noStraddle (sep k v : List Char) : Bool :=
  (List.range k.length).all (fun i => !(sep.isPrefixOf ((k ++ sep ++ v).drop i)))

/-- The cache of the round-trip counterexample: its single value strings
together z-pairs with every candidate character except z itself, so that
every one-character candidate and every two-character candidate before zz
occurs in the stored strings, while zz occurs in none of them; the key ends
in z, so the chosen delimiter zz straddles the key boundary in the saved
line. -/
def nastyValue : List Char :=
  delimiterChars.dropLast.foldr (fun c acc => 'z' :: c :: acc) []

/-- Counterexample cache: one entry, key az, value nastyValue. -/
def nastyCache : List (List Char × List Char) :=
  [("az".data, nastyValue)]

/-! ### XmlReader.py : tokenizer and tree builder -/

/-- Errors raised by XmlReader.py, one constructor per raise site. -/
inductive XmlError : Type where
  | invalidTag
  | emptyStackPop
  | mismatchedTags
  | unexpectedEmptyStack
  | unexpectedEnd
  | indexError
deriving DecidableEq

/-- Tag.Open / Tag.Close / Tag.Single. -/
inductive TagType : Type where
  | Open
  | Close
  | Single
deriving DecidableEq

/-- The Tag object: name, type and parsed attributes. -/
structure TagRec : Type where
  tagName : String
  tagType : TagType
  attributes : List (String × String)
deriving DecidableEq

/-- Characters of the TAG_NAME class [A-Za-z_0-9\-\.]. -/
def isTagNameChar (c : Char) : Bool :=
  isUpperCh c || isLowerCh c || isDigitCh c || c = '_' || c = '-' || c = '.'

/-- Tag._setAttributes state machine, alternating between reading an
attribute name (ended by =) and reading a quoted value (ended by the
matching quote); other characters outside a name or value start a new name
when none is pending, or open a quote when one is. -/
def setAttributesAux (inName inValue : Bool) (openQuote : Char)
    (name value : List Char) (attrs : List (String × String)) :
    List Char → List (String × String)
  | [] => attrs
  | c :: rest =>
      if inName then
        if c = '=' then setAttributesAux false inValue openQuote name value attrs rest
        else setAttributesAux true inValue openQuote (name ++ [c]) value attrs rest
      else if inValue then
        if c = openQuote then
          setAttributesAux inName false openQuote [] []
            (dictInsert attrs (String.mk name) (String.mk value)) rest
        else setAttributesAux inName true openQuote name (value ++ [c]) attrs rest
      else if isPySpace c = false then
        if name = [] then setAttributesAux true inValue openQuote [c] value attrs rest
        else if c = '\'' || c = '"' then
          setAttributesAux inName true c name value attrs rest
        else setAttributesAux inName inValue openQuote name value attrs rest
      else setAttributesAux inName inValue openQuote name value attrs rest

/-- Second-to-last character, tag[-2] in the source. -/
def secondLast (l : List Char) : Option Char :=
  l.reverse.tail.head?

/-- Tag.__init__: match TAG_NAME against the tag token (optional blanks,
an angle bracket, an optional slash marking a closing tag, then at least
one name character), classify the tag as Close, Single or Open, and parse
the remainder after the name, with its trailing /> or > stripped, into
attributes. An unmatched token raises Invalid tag; indexError models the
remainder[-1] lookup on an empty remainder. -/
def parseTag (ts : List Char) : Except XmlError TagRec :=
  match ts.dropWhile (fun c => c = ' ' || c = '\t' || c = '\n') with
  | '<' :: r1 =>
      let isClose : Bool := match r1 with | '/' :: _ => true | _ => false
      let r2 := if isClose then r1.tail else r1
      let name := r2.takeWhile isTagNameChar
      if name.isEmpty then .error .invalidTag
      else
        let tagType := if isClose then TagType.Close
                       else if secondLast ts = some '/' then TagType.Single
                       else TagType.Open
        let remainder := r2.dropWhile isTagNameChar
        let rem1 : Except XmlError (List Char) :=
          if remainder.reverse.take 2 = ['>', '/'] then
            .ok remainder.dropLast.dropLast
          else
            match remainder.getLast? with
            | some c => if c = '>' then .ok remainder.dropLast else .ok remainder
            | none => .error .indexError
        match rem1 with
        | .error e => .error e
        | .ok rem2 =>
            let rem3 := pyStrip rem2
            let attrs := if rem3.isEmpty then []
                         else setAttributesAux false false ' ' [] [] [] rem3
            .ok ⟨String.mk name, tagType, attrs⟩
  | _ => .error .invalidTag

/-- Element built from a Tag: its name and attributes, no children, no
text. -/
def elementOfTag (t : TagRec) : Element :=
  Element.mk t.tagName t.attributes [] none

/-- The nextTag scan: text before the tag accumulates until an angle
bracket opens a tag; inside a tag, quoted spans are skipped so quotes may
contain angle brackets; the tag ends at the first unquoted closing angle
bracket, where the triple (before, tag, rest) is produced. Reaching the end
of input without closing a tag yields none. -/
def nextTagAux (inTag inQuoted : Bool) (openQuote : Char) (before tag : List Char) :
    List Char → Option (List Char × List Char × List Char)
  | [] => none
  | c :: rest =>
      if inTag = false then
        if c = '<' then nextTagAux true inQuoted openQuote before [c] rest
        else nextTagAux false inQuoted openQuote (before ++ [c]) tag rest
      else if inQuoted then
        if c = openQuote then nextTagAux true false openQuote before (tag ++ [c]) rest
        else nextTagAux true true openQuote before (tag ++ [c]) rest
      else if c = '\'' || c = '"' then nextTagAux true true c before (tag ++ [c]) rest
      else if c = '>' then some (before, tag ++ [c], rest)
      else nextTagAux true inQuoted openQuote before (tag ++ [c]) rest

/-- nextTag from XmlReader.py: pull the next tag from the front of the XML
string, returning (text before the tag, the tag, the remainder); when no
complete tag is found the whole string is returned as leading text. -/
def nextTag (s : List Char) : List Char × List Char × List Char :=
  match nextTagAux false false ' ' [] [] s with
  | some r => r
  | none => (s, [], [])

/-- Text attachment of the fromstring loop: non-blank text found before a
tag is stripped and set as the text of the element on top of the open
stack (when the stack is non-empty). -/
def applyText (stack : List Element) (interveningText : List Char) : List Element :=
  let stripped := pyStrip interveningText
  if stripped.isEmpty then stack
  else
    match stack with
    | [] => stack
    | top :: rest => top.setText (String.mk stripped) :: rest

/-- Result of one iteration of the fromstring loop body. -/
inductive StepResult : Type where
  | done (root : Element)
  | cont (stack : List Element)
  | failed (e : XmlError)

/-- One iteration of the fromstring loop body on a fetched (text, tag)
pair: attach pending text, skip the XML prolog, then push an opening tag,
attach a self-closing tag to the current parent, or pop on a closing tag,
failing on a name mismatch and returning the root when the stack empties. -/
def fromstringStep (stack : List Element) (interveningText tagString : List Char) :
    StepResult :=
  let stack1 := applyText stack interveningText
  if !tagString.isEmpty && !("<?xml".data.isPrefixOf tagString) then
    match parseTag tagString with
    | .error e => .failed e
    | .ok tag =>
        match tag.tagType with
        | .Open => .cont (elementOfTag tag :: stack1)
        | .Close =>
            match stack1 with
            | [] => .failed .emptyStackPop
            | top :: rest2 =>
                if top.tag ≠ tag.tagName then .failed .mismatchedTags
                else
                  match rest2 with
                  | [] => .done top
                  | parent :: rest3 => .cont (parent.addElement top :: rest3)
        | .Single =>
            match stack1 with
            | [] => .failed .unexpectedEmptyStack
            | parent :: rest2 => .cont (parent.addElement (elementOfTag tag) :: rest2)
  else .cont stack1

/-- The fromstring loop: fetch the next tag; when both the tag and the
remainder are exhausted the document ended without completing its root
(Did not find end of XML document properly); otherwise run the loop body
and either finish or continue on the remainder. The fuel passed by
fromstring exceeds the input length, and every continuing iteration
consumes at least the closing bracket of its tag, so fuel never runs out. -/
def fromstringAux : Nat → List Element → List Char → Except XmlError Element
  | 0, _, _ => .error .unexpectedEnd
  | fuel + 1, stack, s =>
      match nextTag s with
      | (interveningText, tagString, remainder) =>
          if tagString.isEmpty && remainder.isEmpty then .error .unexpectedEnd
          else
            match fromstringStep stack interveningText tagString with
            | .done root => .ok root
            | .failed e => .error e
            | .cont stack2 => fromstringAux fuel stack2 remainder

/-- fromstring from XmlReader.py. -/
def fromstring (s : String) : Except XmlError Element :=
  fromstringAux (s.data.length + 1) [] s.data

/-! ### Theorems on Python string comparison -/

theorem pyLe_iff (x y : List Char) :
    pyLe x y = true ↔ (x = y ∨ List.Lex (· < ·) x y) := by
  induction x generalizing y with
  | nil =>
      cases y with
      | nil => simp [pyLe]
      | cons b bs => simp [pyLe]; exact List.Lex.nil
  | cons a as ih =>
      cases y with
      | nil =>
          simp only [pyLe, Bool.false_eq_true, false_iff]
          rintro (h | h)
          · exact List.noConfusion h
          · cases h
      | cons b bs =>
          by_cases hab : a = b
          · subst hab
            have hred : pyLe (a :: as) (a :: bs) = pyLe as bs := by
              simp [pyLe]
            rw [hred, ih]
            constructor
            · rintro (h | h)
              · subst h; exact Or.inl rfl
              · exact Or.inr (List.Lex.cons h)
            · rintro (h | h)
              · cases h; exact Or.inl rfl
              · cases h with
                | rel hr => exact absurd hr (lt_irrefl a)
                | cons hl => exact Or.inr hl
          · simp only [pyLe, if_neg hab, decide_eq_true_eq]
            constructor
            · intro h
              refine Or.inr (List.Lex.rel ?_)
              exact Char.lt_def.mpr h
            · rintro (h | h)
              · exact absurd (congrArg List.head? h) (by simp [hab])
              · cases h with
                | rel hr => exact Char.lt_def.mp hr
                | cons _ => exact absurd rfl hab

theorem pyLe_nine_ne_false (y : Char) (r1 r2 : List Char)
    (hd : isDigitCh y = true) (hne : y ≠ '9') :
    pyLe ('9' :: r1) (y :: r2) = false := by
  have hne9 : ('9' : Char) ≠ y := fun h => hne h.symm
  have hne57 : y.toNat ≠ 57 :=
    fun h => hne (Char.ext (UInt32.ext (h.trans (show (57 : ℕ) = ('9' : Char).toNat by decide))))
  have hd57 : y.toNat ≤ 57 := by
    simp only [isDigitCh, Bool.and_eq_true, decide_eq_true_eq] at hd
    exact hd.2
  simp only [pyLe, if_neg hne9, decide_eq_false_iff_not]
  show ¬ (('9' : Char).toNat < y.toNat)
  have h9 : ('9' : Char).toNat = 57 := by decide
  omega

theorem pyLe_nine_cons (r1 r2 : List Char) :
    pyLe ('9' :: r1) ('9' :: r2) = pyLe r1 r2 := by
  simp [pyLe]

theorem sentinel_pyLe_false (y1 y2 y3 y4 m1 m2 d1 d2 : Char)
    (hd1 : isDigitCh y1 = true) (hd2 : isDigitCh y2 = true)
    (hd3 : isDigitCh y3 = true) (hd4 : isDigitCh y4 = true)
    (hy : digitVal y1 * 1000 + digitVal y2 * 100 + digitVal y3 * 10 + digitVal y4 < 9999) :
    pyLe "9999-99-99".data (y1 :: y2 :: y3 :: y4 :: '-' :: m1 :: m2 :: '-' :: d1 :: [d2]) = false := by
  show pyLe ('9' :: '9' :: '9' :: '9' :: '-' :: '9' :: '9' :: '-' :: '9' :: ['9']) _ = false
  by_cases hc1 : y1 = '9'
  · subst hc1
    rw [pyLe_nine_cons]
    by_cases hc2 : y2 = '9'
    · subst hc2
      rw [pyLe_nine_cons]
      by_cases hc3 : y3 = '9'
      · subst hc3
        rw [pyLe_nine_cons]
        by_cases hc4 : y4 = '9'
        · subst hc4
          exact absurd hy (by simp only [show digitVal '9' = 9 from rfl]; omega)
        · exact pyLe_nine_ne_false y4 _ _ hd4 hc4
      · exact pyLe_nine_ne_false y3 _ _ hd3 hc3
    · exact pyLe_nine_ne_false y2 _ _ hd2 hc2
  · exact pyLe_nine_ne_false y1 _ _ hd1 hc1

/-- C6: window membership is the inclusive lexicographic test
startDate <= normalizedDate <= stopDate (with None never inside), and the
sentinel date 9999-99-99 is never within a window whose stop date is a real
zero-padded calendar date with year below 9999. -/
theorem isWithin_lex_and_sentinel :
    (∀ (p s e : String), isWithin (some p) s e = true ↔
        ((s.data = p.data ∨ List.Lex (· < ·) s.data p.data) ∧
         (p.data = e.data ∨ List.Lex (· < ·) p.data e.data))) ∧
    (∀ (s e : String), isRealStopDate e = true →
        isWithin (some "9999-99-99") s e = false) := by
  constructor
  · intro p s e
    simp only [isWithin, Bool.and_eq_true, pyLe_iff]
  · intro s e he
    unfold isRealStopDate at he
    split at he
    next y1 y2 y3 y4 h1c m1 m2 h2c d1 d2 heq =>
      simp only [Bool.and_eq_true, decide_eq_true_eq] at he
      obtain ⟨⟨⟨⟨⟨⟨⟨⟨⟨⟨hd1, hd2⟩, hd3⟩, hd4⟩, hh1⟩, hh2⟩, hm1⟩, hm2⟩, he1⟩, he2⟩, hy⟩ := he
      subst hh1; subst hh2
      have hfalse : pyLe ("9999-99-99".data) e.data = false := by
        rw [heq]
        exact sentinel_pyLe_false y1 y2 y3 y4 m1 m2 d1 d2 hd1 hd2 hd3 hd4 hy
      simp [isWithin, hfalse]
    next =>
      cases he

/-- Witness for C6: a concrete real stop date excludes the sentinel. -/
theorem isWithin_lex_and_sentinel_witness :
    isRealStopDate "2025-12-31" = true ∧
    isWithin (some "9999-99-99") "2020-01-01" "2025-12-31" = false :=
  ⟨by decide, isWithin_lex_and_sentinel.2 "2020-01-01" "2025-12-31" (by decide)⟩

/-- C7 counterexample: a zero exit status whose stdout is exactly the
recognized "no PDF found in gzip file" message is still classified as
success, contradicting the claim that such a paired message counts as
failure. -/
theorem checkPdfCmd_counterexample :
    checkPdfCmd 0 ["Error: no PDF found in gzip file\n"] [] = some true ∧
    (some true : Option Bool) ≠ some false := by
  exact ⟨rfl, by simp⟩

/-- C7 amended: the outcome is classified as failure exactly when the exit
status is non-zero (with an IndexError, modelled none, when stdout is empty
in that case); the recognized messages only select the diagnostic logged,
and a zero exit status is always classified as success. -/
theorem checkPdfCmd_exit_status_only :
    ∀ (retcode : Int) (stdout stderr : List String),
      (retcode = 0 → checkPdfCmd retcode stdout stderr = some true) ∧
      (retcode ≠ 0 → stdout = [] → checkPdfCmd retcode stdout stderr = none) ∧
      (retcode ≠ 0 → stdout ≠ [] → checkPdfCmd retcode stdout stderr = some false) := by
  intro retcode stdout stderr
  refine ⟨?_, ?_, ?_⟩
  · intro h; simp [checkPdfCmd, h]
  · intro h h2; subst h2; simp [checkPdfCmd, h]
  · intro h h2
    cases stdout with
    | nil => exact absurd rfl h2
    | cons l0 ls =>
        simp only [checkPdfCmd, if_pos h]
        split_ifs <;> rfl

/-- Witness for C7 amended at concrete outcomes. -/
theorem checkPdfCmd_exit_status_only_witness :
    checkPdfCmd 0 [] [] = some true ∧
    checkPdfCmd 2 [] [] = none ∧
    checkPdfCmd 2 ["download failed"] [] = some false :=
  ⟨(checkPdfCmd_exit_status_only 0 [] []).1 rfl,
   (checkPdfCmd_exit_status_only 2 [] []).2.1 (by decide) rfl,
   (checkPdfCmd_exit_status_only 2 ["download failed"] []).2.2 (by decide) (by simp)⟩

theorem findall_foldl_eq (t : String) (l : List Element) (acc : List Element) :
    l.foldl (fun subset child => if child.tag = t then subset ++ [child] else subset) acc
      = acc ++ l.filter (fun c => c.tag == t) := by
  induction l generalizing acc with
  | nil => simp
  | cons c rest ih =>
      by_cases h : c.tag = t
      · simp [List.foldl_cons, h, ih, List.filter_cons]
      · simp [List.foldl_cons, h, ih, List.filter_cons]

/-- C9: findall returns exactly the direct children whose tag equals the
requested tag, in document order, and find is the head of findall (absent
when findall is empty). -/
theorem find_findall_agree :
    ∀ (e : Element) (t : String),
      e.findall t = e.children.filter (fun c => c.tag == t) ∧
      e.find t = (e.findall t).head? := by
  intro e t
  constructor
  · show e.children.foldl _ [] = _
    rw [findall_foldl_eq]
    simp
  · unfold Element.find
    cases e.findall t <;> simp

theorem monthMap_mem (m : String) (p : String × String) (h : monthMap m = some p) :
    m = "Jan" ∨ m = "Feb" ∨ m = "Mar" ∨ m = "Apr" ∨ m = "May" ∨ m = "Jun" ∨
    m = "Jul" ∨ m = "Aug" ∨ m = "Sep" ∨ m = "Oct" ∨ m = "Nov" ∨ m = "Dec" := by
  unfold monthMap at h
  by_cases h1 : m = "Jan"
  · exact Or.inl h1
  rw [if_neg h1] at h
  by_cases h2 : m = "Feb"
  · exact Or.inr (Or.inl h2)
  rw [if_neg h2] at h
  by_cases h3 : m = "Mar"
  · exact Or.inr (Or.inr (Or.inl h3))
  rw [if_neg h3] at h
  by_cases h4 : m = "Apr"
  · exact Or.inr (Or.inr (Or.inr (Or.inl h4)))
  rw [if_neg h4] at h
  by_cases h5 : m = "May"
  · exact Or.inr (Or.inr (Or.inr (Or.inr (Or.inl h5))))
  rw [if_neg h5] at h
  by_cases h6 : m = "Jun"
  · exact Or.inr (Or.inr (Or.inr (Or.inr (Or.inr (Or.inl h6)))))
  rw [if_neg h6] at h
  by_cases h7 : m = "Jul"
  · exact Or.inr (Or.inr (Or.inr (Or.inr (Or.inr (Or.inr (Or.inl h7))))))
  rw [if_neg h7] at h
  by_cases h8 : m = "Aug"
  · exact Or.inr (Or.inr (Or.inr (Or.inr (Or.inr (Or.inr (Or.inr (Or.inl h8)))))))
  rw [if_neg h8] at h
  by_cases h9 : m = "Sep"
  · exact Or.inr (Or.inr (Or.inr (Or.inr (Or.inr (Or.inr (Or.inr (Or.inr (Or.inl h9))))))))
  rw [if_neg h9] at h
  by_cases h10 : m = "Oct"
  · exact Or.inr (Or.inr (Or.inr (Or.inr (Or.inr (Or.inr (Or.inr (Or.inr (Or.inr (Or.inl h10)))))))))
  rw [if_neg h10] at h
  by_cases h11 : m = "Nov"
  · exact Or.inr (Or.inr (Or.inr (Or.inr (Or.inr (Or.inr (Or.inr (Or.inr (Or.inr (Or.inr (Or.inl h11))))))))))
  rw [if_neg h11] at h
  by_cases h12 : m = "Dec"
  · exact Or.inr (Or.inr (Or.inr (Or.inr (Or.inr (Or.inr (Or.inr (Or.inr (Or.inr (Or.inr (Or.inr h12))))))))))
  rw [if_neg h12] at h
  exact Option.noConfusion h

theorem monthMap_shape (m : String) (p : String × String) (h : monthMap m = some p) :
    ∃ c1 c2 c3, m.data = [c1, c2, c3] ∧
      (isUpperCh c1 = true ∧ isLowerCh c2 = true ∧ isLowerCh c3 = true) := by
  rcases monthMap_mem m p h with h1 | h1 | h1 | h1 | h1 | h1 | h1 | h1 | h1 | h1 | h1 | h1
  · exact h1 ▸ ⟨'J', 'a', 'n', by decide⟩
  · exact h1 ▸ ⟨'F', 'e', 'b', by decide⟩
  · exact h1 ▸ ⟨'M', 'a', 'r', by decide⟩
  · exact h1 ▸ ⟨'A', 'p', 'r', by decide⟩
  · exact h1 ▸ ⟨'M', 'a', 'y', by decide⟩
  · exact h1 ▸ ⟨'J', 'u', 'n', by decide⟩
  · exact h1 ▸ ⟨'J', 'u', 'l', by decide⟩
  · exact h1 ▸ ⟨'A', 'u', 'g', by decide⟩
  · exact h1 ▸ ⟨'S', 'e', 'p', by decide⟩
  · exact h1 ▸ ⟨'O', 'c', 't', by decide⟩
  · exact h1 ▸ ⟨'N', 'o', 'v', by decide⟩
  · exact h1 ▸ ⟨'D', 'e', 'c', by decide⟩

theorem gsdf_month_only (y1 y2 y3 y4 : Char) (mon mm dd : String)
    (hy1 : isDigitCh y1 = true) (hy2 : isDigitCh y2 = true)
    (hy3 : isDigitCh y3 = true) (hy4 : isDigitCh y4 = true)
    (hm : monthMap mon = some (mm, dd)) :
    getStandardDateFormat (some (String.mk [y1, y2, y3, y4, ' '] ++ mon)) =
      some (String.mk [y1, y2, y3, y4] ++ "-" ++ mm ++ "-" ++ dd) := by
  obtain ⟨c1, c2, c3, hdata, hu, hl2, hl3⟩ := monthMap_shape mon (mm, dd) hm
  have hmon : String.mk [c1, c2, c3] = mon := by rw [← hdata]
  have hsdata : (String.mk [y1, y2, y3, y4, ' '] ++ mon).data
      = [y1, y2, y3, y4, ' ', c1, c2, c3] := by
    rw [String.data_append, hdata]; rfl
  have h1 : pmDate1Match [y1, y2, y3, y4, ' ', c1, c2, c3] = none := rfl
  have h2 : pmDate2Match [y1, y2, y3, y4, ' ', c1, c2, c3] = none := rfl
  have h3 : pmDate3Match [y1, y2, y3, y4, ' ', c1, c2, c3]
      = some ([y1, y2, y3, y4], [c1, c2, c3]) := by
    simp [pmDate3Match, hy1, hy2, hy3, hy4, hu, hl2, hl3]
  simp only [getStandardDateFormat, hsdata, h1, h2, h3, hmon, hm]

theorem gsdf_exact_day2 (y1 y2 y3 y4 d1 d2 : Char) (mon mm dd : String)
    (hy1 : isDigitCh y1 = true) (hy2 : isDigitCh y2 = true)
    (hy3 : isDigitCh y3 = true) (hy4 : isDigitCh y4 = true)
    (hd1 : isDigitCh d1 = true) (hd2 : isDigitCh d2 = true)
    (hm : monthMap mon = some (mm, dd)) :
    getStandardDateFormat (some (String.mk [y1, y2, y3, y4, ' '] ++ mon ++ String.mk [' ', d1, d2]))
      = some (String.mk [y1, y2, y3, y4] ++ "-" ++ mm ++ "-" ++ String.mk [d1, d2]) := by
  obtain ⟨c1, c2, c3, hdata, hu, hl2, hl3⟩ := monthMap_shape mon (mm, dd) hm
  have hmon : String.mk [c1, c2, c3] = mon := by rw [← hdata]
  have hsdata : (String.mk [y1, y2, y3, y4, ' '] ++ mon ++ String.mk [' ', d1, d2]).data
      = [y1, y2, y3, y4, ' ', c1, c2, c3, ' ', d1, d2] := by
    rw [String.data_append, String.data_append, hdata]; rfl
  have h1 : pmDate1Match [y1, y2, y3, y4, ' ', c1, c2, c3, ' ', d1, d2] = none := rfl
  have h2 : pmDate2Match [y1, y2, y3, y4, ' ', c1, c2, c3, ' ', d1, d2]
      = some ([y1, y2, y3, y4], [c1, c2, c3], [d1, d2]) := by
    simp [pmDate2Match, hy1, hy2, hy3, hy4, hu, hl2, hl3, hd1, hd2]
  have hpad : padDay [d1, d2] = [d1, d2] := rfl
  simp only [getStandardDateFormat, hsdata, h1, h2, hmon, hm, hpad]

theorem gsdf_exact_day1 (y1 y2 y3 y4 d1 : Char) (mon mm dd : String)
    (hy1 : isDigitCh y1 = true) (hy2 : isDigitCh y2 = true)
    (hy3 : isDigitCh y3 = true) (hy4 : isDigitCh y4 = true)
    (hd1 : isDigitCh d1 = true)
    (hm : monthMap mon = some (mm, dd)) :
    getStandardDateFormat (some (String.mk [y1, y2, y3, y4, ' '] ++ mon ++ String.mk [' ', d1]))
      = some (String.mk [y1, y2, y3, y4] ++ "-" ++ mm ++ "-" ++ String.mk ['0', d1]) := by
  obtain ⟨c1, c2, c3, hdata, hu, hl2, hl3⟩ := monthMap_shape mon (mm, dd) hm
  have hmon : String.mk [c1, c2, c3] = mon := by rw [← hdata]
  have hsdata : (String.mk [y1, y2, y3, y4, ' '] ++ mon ++ String.mk [' ', d1]).data
      = [y1, y2, y3, y4, ' ', c1, c2, c3, ' ', d1] := by
    rw [String.data_append, String.data_append, hdata]; rfl
  have h1 : pmDate1Match [y1, y2, y3, y4, ' ', c1, c2, c3, ' ', d1] = none := rfl
  have h2 : pmDate2Match [y1, y2, y3, y4, ' ', c1, c2, c3, ' ', d1]
      = some ([y1, y2, y3, y4], [c1, c2, c3], [d1]) := by
    simp [pmDate2Match, hy1, hy2, hy3, hy4, hu, hl2, hl3, hd1]
  have hpad : padDay [d1] = ['0', d1] := rfl
  simp only [getStandardDateFormat, hsdata, h1, h2, hmon, hm, hpad]

theorem gsdf_month_range (y1 y2 y3 y4 : Char) (mon1 mm1 dd1 mon2 mm2 dd2 : String)
    (hy1 : isDigitCh y1 = true) (hy2 : isDigitCh y2 = true)
    (hy3 : isDigitCh y3 = true) (hy4 : isDigitCh y4 = true)
    (hm1 : monthMap mon1 = some (mm1, dd1)) (hm2 : monthMap mon2 = some (mm2, dd2)) :
    getStandardDateFormat (some (String.mk [y1, y2, y3, y4, ' '] ++ mon1 ++ "-" ++ mon2))
      = some (String.mk [y1, y2, y3, y4] ++ "-" ++ mm2 ++ "-" ++ dd2) := by
  obtain ⟨a1, a2, a3, hdataA, huA, hlA2, hlA3⟩ := monthMap_shape mon1 (mm1, dd1) hm1
  obtain ⟨b1, b2, b3, hdataB, huB, hlB2, hlB3⟩ := monthMap_shape mon2 (mm2, dd2) hm2
  have hmon2 : String.mk [b1, b2, b3] = mon2 := by rw [← hdataB]
  have hsdata : (String.mk [y1, y2, y3, y4, ' '] ++ mon1 ++ "-" ++ mon2).data
      = [y1, y2, y3, y4, ' ', a1, a2, a3, '-', b1, b2, b3] := by
    rw [String.data_append, String.data_append, String.data_append, hdataA, hdataB]; rfl
  have h1 : pmDate1Match [y1, y2, y3, y4, ' ', a1, a2, a3, '-', b1, b2, b3]
      = some ([y1, y2, y3, y4], [b1, b2, b3]) := by
    simp [pmDate1Match, hy1, hy2, hy3, hy4, huA, hlA2, hlA3, huB, hlB2, hlB3]
  simp only [getStandardDateFormat, hsdata, h1, hmon2, hm2]

theorem gsdf_unmatched (s : String) (h1 : pmDate1Match s.data = none)
    (h2 : pmDate2Match s.data = none) (h3 : pmDate3Match s.data = none) :
    getStandardDateFormat (some s) = some "9999-99-99" := by
  simp only [getStandardDateFormat, h1, h2, h3]

/-- C1 (amended): an input YYYY Mon DD or YYYY Mon D (Mon a month of the
table) normalizes to YYYY-MM-DD with the day left-padded; YYYY Mon uses the
fixed month-to-last-day table; YYYY Mon1-Mon2 uses only the second month of
the range with its last-day default; None and inputs matching none of the
three patterns normalize to the sentinel 9999-99-99; but an input matching
a pattern shape whose month token is not in the table raises KeyError
(modelled none) rather than producing the sentinel. -/
theorem date_normalization :
    (∀ (y1 y2 y3 y4 d1 d2 : Char) (mon mm dd : String),
        isDigitCh y1 = true → isDigitCh y2 = true → isDigitCh y3 = true → isDigitCh y4 = true →
        isDigitCh d1 = true → isDigitCh d2 = true → monthMap mon = some (mm, dd) →
        getStandardDateFormat
            (some (String.mk [y1, y2, y3, y4, ' '] ++ mon ++ String.mk [' ', d1, d2]))
          = some (String.mk [y1, y2, y3, y4] ++ "-" ++ mm ++ "-" ++ String.mk [d1, d2])) ∧
    (∀ (y1 y2 y3 y4 d1 : Char) (mon mm dd : String),
        isDigitCh y1 = true → isDigitCh y2 = true → isDigitCh y3 = true → isDigitCh y4 = true →
        isDigitCh d1 = true → monthMap mon = some (mm, dd) →
        getStandardDateFormat
            (some (String.mk [y1, y2, y3, y4, ' '] ++ mon ++ String.mk [' ', d1]))
          = some (String.mk [y1, y2, y3, y4] ++ "-" ++ mm ++ "-" ++ String.mk ['0', d1])) ∧
    (∀ (y1 y2 y3 y4 : Char) (mon mm dd : String),
        isDigitCh y1 = true → isDigitCh y2 = true → isDigitCh y3 = true → isDigitCh y4 = true →
        monthMap mon = some (mm, dd) →
        getStandardDateFormat (some (String.mk [y1, y2, y3, y4, ' '] ++ mon))
          = some (String.mk [y1, y2, y3, y4] ++ "-" ++ mm ++ "-" ++ dd)) ∧
    (∀ (y1 y2 y3 y4 : Char) (mon1 mm1 dd1 mon2 mm2 dd2 : String),
        isDigitCh y1 = true → isDigitCh y2 = true → isDigitCh y3 = true → isDigitCh y4 = true →
        monthMap mon1 = some (mm1, dd1) → monthMap mon2 = some (mm2, dd2) →
        getStandardDateFormat (some (String.mk [y1, y2, y3, y4, ' '] ++ mon1 ++ "-" ++ mon2))
          = some (String.mk [y1, y2, y3, y4] ++ "-" ++ mm2 ++ "-" ++ dd2)) ∧
    getStandardDateFormat none = some "9999-99-99" ∧
    (∀ (s : String), pmDate1Match s.data = none → pmDate2Match s.data = none →
        pmDate3Match s.data = none →
        getStandardDateFormat (some s) = some "9999-99-99") ∧
    (getStandardDateFormat (some "2021 Jun 1") = some "2021-06-01" ∧
     getStandardDateFormat (some "2021 Jun") = some "2021-06-30" ∧
     getStandardDateFormat (some "2021 Jan-Jul") = some "2021-07-31") := by
  refine ⟨?_, ?_, ?_, ?_, rfl, ?_, by decide, by decide, by decide⟩
  · intro y1 y2 y3 y4 d1 d2 mon mm dd hy1 hy2 hy3 hy4 hd1 hd2 hm
    exact gsdf_exact_day2 y1 y2 y3 y4 d1 d2 mon mm dd hy1 hy2 hy3 hy4 hd1 hd2 hm
  · intro y1 y2 y3 y4 d1 mon mm dd hy1 hy2 hy3 hy4 hd1 hm
    exact gsdf_exact_day1 y1 y2 y3 y4 d1 mon mm dd hy1 hy2 hy3 hy4 hd1 hm
  · intro y1 y2 y3 y4 mon mm dd hy1 hy2 hy3 hy4 hm
    exact gsdf_month_only y1 y2 y3 y4 mon mm dd hy1 hy2 hy3 hy4 hm
  · intro y1 y2 y3 y4 mon1 mm1 dd1 mon2 mm2 dd2 hy1 hy2 hy3 hy4 hm1 hm2
    exact gsdf_month_range y1 y2 y3 y4 mon1 mm1 dd1 mon2 mm2 dd2 hy1 hy2 hy3 hy4 hm1 hm2
  · intro s h1 h2 h3
    exact gsdf_unmatched s h1 h2 h3

/-- Witness for C1 at concrete dates covering a two-digit day and a
month-only input. -/
theorem date_normalization_witness :
    getStandardDateFormat
        (some (String.mk ['2', '0', '2', '1', ' '] ++ "Jun" ++ String.mk [' ', '1', '5']))
      = some (String.mk ['2', '0', '2', '1'] ++ "-" ++ "06" ++ "-" ++ String.mk ['1', '5']) ∧
    getStandardDateFormat (some (String.mk ['2', '0', '2', '1', ' '] ++ "Feb"))
      = some (String.mk ['2', '0', '2', '1'] ++ "-" ++ "02" ++ "-" ++ "28") :=
  ⟨date_normalization.1 '2' '0' '2' '1' '1' '5' "Jun" "06" "30"
      (by decide) (by decide) (by decide) (by decide) (by decide) (by decide) rfl,
   date_normalization.2.2.1 '2' '0' '2' '1' "Feb" "02" "28"
      (by decide) (by decide) (by decide) (by decide) rfl⟩

/-- C1 counterexample: "2021 Xyz" matches none of the three date
granularities (Xyz is not a month abbreviation), so the claim requires the
sentinel 9999-99-99; the code instead hits a KeyError in monthMap (the
pmDate3 shape matched but the token is missing from the table), modelled
here as none. -/
theorem date_normalization_counterexample :
    getStandardDateFormat (some "2021 Xyz") = none ∧
    getStandardDateFormat (some "2021 Xyz") ≠ some "9999-99-99" :=
  ⟨by decide, by decide⟩

/-- C2 counterexample: an Elsevier record from the right journal whose
PubMed ID cannot be resolved (so the no-secondary-identifier rule, second
in the claimed order, triggers, and its absent date also fails the window
test) is counted as outside-window (beyondStop), not as missing-identifier,
so the first rule in the claimed fixed order is not the one counted. -/
theorem classification_order_counterexample :
    elsClassify "Bone" "Bone" "pii1" "no PMID" [] [] [] "2020-01-01" "2030-12-31"
      = ElsClass.beyondStop ∧
    elsClaimClassify "Bone" "Bone" "pii1" "no PMID" [] [] [] "2020-01-01" "2030-12-31"
      = ElsClass.noID ∧
    ElsClass.beyondStop ≠ ElsClass.noID :=
  ⟨rfl, rfl, by decide⟩

/-- C2 (amended): the PMC filter applies its exclusions by first match in
the claimed relative order (missing identifier, already known, unwanted
known type, new type); the Elsevier loop also applies first-match
exclusions, but in the order wrong-journal, already-known, outside-window,
missing-identifier, so a record with no resolvable PubMed ID (whose date is
therefore absent) is counted as outside-window rather than as
missing-identifier. -/
theorem classification_order :
    (∀ (mgiSet : List String) (pmid : Option String) (atype : String),
        wantArticle mgiSet pmid atype = pmcClaimClassify mgiSet pmid atype) ∧
    (∀ (longName rJournal pii rPmid : String)
        (pmidCache : List (String × String)) (mgiSet : List String)
        (publicationDates : List (String × String)) (startDate stopDate : String),
        elsClassify longName rJournal pii rPmid pmidCache mgiSet publicationDates
            startDate stopDate
          = elsPriorityClassify longName rJournal pii rPmid pmidCache mgiSet
              publicationDates startDate stopDate) ∧
    (∀ (longName pii rPmid : String)
        (pmidCache : List (String × String)) (mgiSet : List String)
        (publicationDates : List (String × String)) (startDate stopDate : String),
        resolvePmid pmidCache pii rPmid = "no PMID" →
        mgiSet.contains "no PMID" = false →
        dictGet publicationDates "no PMID" = none →
        elsClassify longName longName pii rPmid pmidCache mgiSet publicationDates
            startDate stopDate
          = ElsClass.beyondStop) := by
  refine ⟨?_, ?_, ?_⟩
  · intro mgiSet pmid atype
    cases pmid with
    | none => rfl
    | some p =>
        rcases hl : dictGet articleTypes atype with _ | b
        · simp only [wantArticle, pmcClaimClassify, pmcNoIdTrig, pmcKnownTrig,
                     pmcUnwantedTrig, pmcNewTrig, hl]
          split_ifs <;> simp_all
        · cases b <;>
          · simp only [wantArticle, pmcClaimClassify, pmcNoIdTrig, pmcKnownTrig,
                       pmcUnwantedTrig, pmcNewTrig, hl]
            split_ifs <;> simp_all
  · intro longName rJournal pii rPmid pmidCache mgiSet publicationDates startDate stopDate
    simp only [elsClassify, elsPriorityClassify]
    split_ifs <;> simp_all
  · intro longName pii rPmid pmidCache mgiSet publicationDates startDate stopDate hres hmem hdate
    have hmem2 : ("no PMID" : String) ∉ mgiSet := by simpa using hmem
    simp [elsClassify, hres, hmem2, hdate, isWithin]

/-- Witness for C2 at concrete records: a record failing both the type rule
and the membership rule is counted by the earlier membership rule in the
PMC path, and a concrete no-identifier Elsevier record is counted
beyondStop. -/
theorem classification_order_witness :
    wantArticle ["55"] (some "55") "editorial"
      = pmcClaimClassify ["55"] (some "55") "editorial" ∧
    wantArticle ["55"] (some "55") "editorial" = PMCClass.skipInMgi ∧
    elsClassify "Bone" "Bone" "p2" "no PMID" [] ["1"] [("9", "2021-05-05")]
        "2020-01-01" "2030-12-31"
      = ElsClass.beyondStop :=
  ⟨classification_order.1 ["55"] (some "55") "editorial",
   by decide,
   classification_order.2.2 "Bone" "p2" "no PMID" [] ["1"] [("9", "2021-05-05")]
     "2020-01-01" "2030-12-31" (by decide) (by decide) (by decide)⟩

theorem containsSub_infix_iff (n h : List Char) : containsSub n h = true ↔ n <:+: h := by
  induction h with
  | nil =>
      simp [containsSub, List.isPrefixOf_iff_prefix]
  | cons c r ih =>
      simp only [containsSub, Bool.or_eq_true, ih, List.isPrefixOf_iff_prefix]
      exact List.infix_cons_iff.symm

theorem containsSub_length_le (n h : List Char) (hc : containsSub n h = true) :
    n.length ≤ h.length :=
  ((containsSub_infix_iff n h).mp hc).length_le

theorem mem_le_maxLen (strings : List (List Char)) (s : List Char) :
    s ∈ strings → s.length ≤ maxLen strings := by
  induction strings with
  | nil => intro hs; cases hs
  | cons t rest ih =>
      intro hs
      have hm : maxLen (t :: rest) = Nat.max t.length (maxLen rest) := rfl
      rcases List.mem_cons.mp hs with h | h
      · subst h; rw [hm]; exact Nat.le_max_left _ _
      · rw [hm]; exact Nat.le_trans (ih h) (Nat.le_max_right _ _)

theorem findTrial_spec (strings : List (List Char)) (delim : List Char) :
    ∀ (cs : List Char) (t : List Char), findTrial strings delim cs = some t →
      t ≠ [] ∧ ∀ s ∈ strings, containsSub t s = false := by
  intro cs
  induction cs with
  | nil => intro t h; cases h
  | cons c cs ih =>
      intro t h
      simp only [findTrial] at h
      by_cases ha : strings.any (fun s => containsSub (delim ++ [c]) s) = true
      · rw [if_pos ha] at h
        exact ih t h
      · rw [if_neg ha] at h
        cases h
        refine ⟨by simp, ?_⟩
        intro s hs
        cases hcc : containsSub (delim ++ [c]) s with
        | false => rfl
        | true => exact absurd (List.any_eq_true.mpr ⟨s, hs, hcc⟩) ha

theorem findTrial_long (strings : List (List Char)) (delim : List Char)
    (hlen : maxLen strings ≤ delim.length) :
    ∃ t, findTrial strings delim delimiterChars = some t := by
  have hchars : delimiterChars = ' ' :: delimiterChars.tail := rfl
  rw [hchars]
  simp only [findTrial]
  have hany : strings.any (fun s => containsSub (delim ++ [' ']) s) = false := by
    cases hq : strings.any (fun s => containsSub (delim ++ [' ']) s) with
    | false => rfl
    | true =>
        obtain ⟨s, hs, hcc⟩ := List.any_eq_true.mp hq
        have h1 := containsSub_length_le _ _ hcc
        have h2 := mem_le_maxLen strings s hs
        simp only [List.length_append, List.length_cons, List.length_nil] at h1
        omega
  simp [hany]

theorem findDelimiterAux_spec (strings : List (List Char)) :
    ∀ (fuel : Nat) (delim : List Char),
      maxLen strings < fuel + delim.length → 1 ≤ fuel →
      ∃ d, findDelimiterAux strings fuel delim = some d ∧ d ≠ [] ∧
        ∀ s ∈ strings, containsSub d s = false := by
  intro fuel
  induction fuel with
  | zero => intro delim _ h1; omega
  | succ n ih =>
      intro delim hlen _
      simp only [findDelimiterAux]
      rcases hft : findTrial strings delim delimiterChars with _ | t
      · cases n with
        | zero =>
            obtain ⟨t, ht⟩ := findTrial_long strings delim (by omega)
            rw [hft] at ht
            cases ht
        | succ m =>
            have hrec := ih (delim ++ [delimiterCharsLast])
              (by simp only [List.length_append, List.length_cons, List.length_nil]; omega)
              (by omega)
            simpa using hrec
      · obtain ⟨hne, hspec⟩ := findTrial_spec strings delim delimiterChars t hft
        exact ⟨t, rfl, hne, hspec⟩

/-- C3: the delimiter-selection procedure always succeeds within its fuel
(the Python loop terminates) and the delimiter it returns is not a
substring of any stored key or of any stored value. -/
theorem delimiter_selection :
    ∀ (contents : List (List Char × List Char)),
      ∃ d, findDelimiter contents = some d ∧ d ≠ [] ∧
        ∀ kv ∈ contents, ¬ (d <:+: kv.1) ∧ ¬ (d <:+: kv.2) := by
  intro contents
  obtain ⟨d, hd, hne, hspec⟩ :=
    findDelimiterAux_spec (contents.map Prod.fst ++ contents.map Prod.snd)
      (maxLen (contents.map Prod.fst ++ contents.map Prod.snd) + 1) []
      (by simp) (by omega)
  refine ⟨d, ?_, hne, ?_⟩
  · simpa [findDelimiter] using hd
  · intro kv hkv
    have h1 := hspec kv.1 (List.mem_append.mpr (Or.inl (List.mem_map_of_mem Prod.fst hkv)))
    have h2 := hspec kv.2 (List.mem_append.mpr (Or.inr (List.mem_map_of_mem Prod.snd hkv)))
    refine ⟨fun hinf => ?_, fun hinf => ?_⟩
    · have := (containsSub_infix_iff d kv.1).mpr hinf
      rw [h1] at this
      cases this
    · have := (containsSub_infix_iff d kv.2).mpr hinf
      rw [h2] at this
      cases this

theorem splitAux_no_occurrence (sep : List Char) :
    ∀ (fuel : Nat) (s acc : List Char), s.length < fuel → containsSub sep s = false →
      splitAux sep fuel s acc = [acc.reverse ++ s] := by
  intro fuel
  induction fuel with
  | zero => intro s acc h _; omega
  | succ n ih =>
      intro s acc hlen hocc
      cases s with
      | nil => simp [splitAux]
      | cons c rest =>
          simp only [containsSub] at hocc
          cases hp : sep.isPrefixOf (c :: rest) with
          | true => rw [hp] at hocc; simp at hocc
          | false =>
              rw [hp] at hocc
              simp only [Bool.false_or] at hocc
              simp only [splitAux]
              rw [if_neg (by simp [hp])]
              rw [ih rest (c :: acc) (by simp at hlen; omega) hocc]
              simp

theorem splitAux_canonical (sep : List Char) (hsep : sep ≠ []) (v : List Char)
    (hv : containsSub sep v = false) :
    ∀ (k : List Char) (fuel : Nat) (acc : List Char),
      (k ++ sep ++ v).length < fuel →
      noStraddle sep k v = true →
      splitAux sep fuel (k ++ sep ++ v) acc = [acc.reverse ++ k, v] := by
  intro k
  induction k with
  | nil =>
      intro fuel acc hlen _
      cases fuel with
      | zero => omega
      | succ n =>
          rcases hsepc : sep with _ | ⟨d, ds⟩
          · exact absurd hsepc hsep
          · subst hsepc
            have hs : ([] : List Char) ++ (d :: ds) ++ v = d :: (ds ++ v) := by simp
            rw [hs]
            simp only [splitAux]
            rw [if_pos (by simp [ List.isPrefixOf_iff_prefix])]
            have hdrop : (d :: (ds ++ v)).drop (d :: ds).length = v := by
              simp only [List.length_cons, List.drop_succ_cons]
              exact List.drop_left ds v
            rw [hdrop]
            rw [splitAux_no_occurrence (d :: ds) n v [] (by simp at hlen; omega) hv]
            simp
  | cons a k2 ih =>
      intro fuel acc hlen hstr
      cases fuel with
      | zero => omega
      | succ n =>
          have hs : (a :: k2) ++ sep ++ v = a :: (k2 ++ sep ++ v) := by simp
          have h0 : sep.isPrefixOf ((a :: k2) ++ sep ++ v) = false := by
            have h00 := List.all_eq_true.mp hstr 0 (by simp [List.mem_range])
            simpa using h00
          have hstr2 : noStraddle sep k2 v = true := by
            rw [noStraddle, List.all_eq_true]
            intro i hi
            have hmem : i + 1 ∈ List.range (a :: k2).length := by
              simp only [List.mem_range] at hi ⊢
              simp only [List.length_cons]
              omega
            have := List.all_eq_true.mp hstr (i + 1) hmem
            simpa [hs] using this
          have h0b : sep.isPrefixOf (a :: (k2 ++ sep ++ v)) = false := h0
          have h0p : ¬ (sep.isPrefixOf (a :: (k2 ++ sep ++ v)) = true) := by
            intro hcc
            rw [h0b] at hcc
            exact Bool.noConfusion hcc
          rw [hs]
          simp only [splitAux]
          rw [if_neg h0p]
          rw [ih n (a :: acc) (by simp at hlen ⊢; omega) hstr2]
          simp

theorem dictInsert_fresh {α β : Type} [DecidableEq α] (m : List (α × β)) (k : α) (v : β)
    (h : dictGet m k = none) : dictInsert m k v = m ++ [(k, v)] := by
  induction m with
  | nil => rfl
  | cons kv rest ih =>
      obtain ⟨k0, v0⟩ := kv
      simp only [dictGet] at h
      simp only [dictInsert]
      by_cases hk : k0 = k
      · rw [if_pos hk] at h; cases h
      · rw [if_neg hk] at h
        rw [if_neg hk, ih h]
        simp

theorem dictGet_append_single {α β : Type} [DecidableEq α] (m : List (α × β)) (k k2 : α)
    (v : β) (h : dictGet m k2 = none) (hne : k2 ≠ k) :
    dictGet (m ++ [(k, v)]) k2 = none := by
  induction m with
  | nil =>
      simp only [List.nil_append, dictGet]
      rw [if_neg (fun hh => hne hh.symm)]
  | cons kv rest ih =>
      obtain ⟨k0, v0⟩ := kv
      simp only [dictGet] at h
      simp only [List.cons_append, dictGet]
      by_cases hk : k0 = k2
      · rw [if_pos hk] at h; cases h
      · rw [if_neg hk] at h
        rw [if_neg hk]
        exact ih h

theorem load_fold (d : List Char) :
    ∀ (entries acc : List (List Char × List Char)),
      (∀ kv ∈ entries, pySplit d (kv.1 ++ d ++ kv.2) = [kv.1, kv.2]) →
      (∀ kv ∈ entries, dictGet acc kv.1 = none) →
      (entries.map Prod.fst).Nodup →
      (entries.map (fun kv => kv.1 ++ d ++ kv.2)).foldl (loadStep d) acc
        = acc ++ entries := by
  intro entries
  induction entries with
  | nil => intro acc _ _ _; simp
  | cons kv rest ih =>
      intro acc hsplit hfresh hnodup
      obtain ⟨k, v⟩ := kv
      have hsp : pySplit d (k ++ d ++ v) = [k, v] := hsplit (k, v) (by simp)
      have hstep : loadStep d acc (k ++ d ++ v) = acc ++ [(k, v)] := by
        unfold loadStep
        rw [hsp]
        exact dictInsert_fresh acc k v (hfresh (k, v) (by simp))
      have hknotin : k ∉ rest.map Prod.fst := by
        have h2 := hnodup
        simp only [List.map_cons, List.nodup_cons] at h2
        exact h2.1
      simp only [List.map_cons, List.foldl_cons]
      rw [show ((k, v).1 ++ d ++ (k, v).2) = k ++ d ++ v from rfl, hstep]
      rw [ih (acc ++ [(k, v)]) ?hs ?hf ?hn]
      · simp
      case hs =>
        intro kv2 hm
        exact hsplit kv2 (List.mem_cons_of_mem _ hm)
      case hf =>
        intro kv2 hm
        refine dictGet_append_single acc k kv2.1 v (hfresh kv2 (List.mem_cons_of_mem _ hm)) ?_
        intro heq
        exact hknotin (heq ▸ List.mem_map_of_mem Prod.fst hm)
      case hn =>
        have h2 := hnodup
        simp only [List.map_cons, List.nodup_cons] at h2
        exact h2.2

set_option maxRecDepth 10000 in
/-- C4 counterexample: a newline-free cache on which save() followed by a
fresh load does not reproduce the mapping. The chosen delimiter is zz and
the key az ends in z, so in the saved line azzz... the delimiter is found
one position early, splitting the line into a, the empty string and the
value tail: the loaded cache maps a to the empty string and has no entry
for az at all. -/
theorem persistent_map_roundtrip_counterexample :
    (∀ kv ∈ nastyCache, ('\n' ∉ kv.1 ∧ '\n' ∉ kv.2)) ∧
    saveLoad nastyCache = some [(['a'], [])] ∧
    dictGet [((['a'] : List Char), ([] : List Char))] "az".data = none ∧
    dictGet nastyCache "az".data = some nastyValue := by
  refine ⟨by decide, by decide, by decide, by decide⟩

/-- C4 (amended): save() followed by a fresh load reproduces the identical
key-to-value mapping for every cache with newline-free keys and values,
provided additionally that no occurrence of the selected delimiter in a
saved line begins inside the key (no straddling occurrence; in particular
any one-character delimiter qualifies). The counterexample shows the extra
condition is necessary. -/
theorem persistent_map_roundtrip :
    ∀ (contents : List (List Char × List Char)) (d : List Char),
      (∀ kv ∈ contents, ('\n' ∉ kv.1 ∧ '\n' ∉ kv.2)) →
      (contents.map Prod.fst).Nodup →
      findDelimiter contents = some d →
      (∀ kv ∈ contents, noStraddle d kv.1 kv.2 = true) →
      saveLoad contents = some contents := by
  intro contents d hnl hnodup hd hstr
  obtain ⟨d2, hd2, hne2, hspec2⟩ :=
    findDelimiterAux_spec (contents.map Prod.fst ++ contents.map Prod.snd)
      (maxLen (contents.map Prod.fst ++ contents.map Prod.snd) + 1) []
      (by simp) (by omega)
  have hd2d : d2 = d := by
    have h1 : findDelimiter contents = some d2 := by simpa [findDelimiter] using hd2
    exact Option.some.inj (h1.symm.trans hd)
  rw [hd2d] at hne2 hspec2
  have hsplitAll : ∀ kv ∈ contents, pySplit d (kv.1 ++ d ++ kv.2) = [kv.1, kv.2] := by
    intro kv hm
    have hv : containsSub d kv.2 = false :=
      hspec2 kv.2 (List.mem_append.mpr (Or.inr (List.mem_map_of_mem Prod.snd hm)))
    have := splitAux_canonical d hne2 kv.2 hv kv.1
      ((kv.1 ++ d ++ kv.2).length + 1) [] (by omega) (hstr kv hm)
    simpa [pySplit] using this
  unfold saveLoad save
  rw [hd]
  simp only [Option.map_some']
  congr 1
  simp only [load]
  rw [load_fold d contents [] hsplitAll (by intro kv _; rfl) hnodup]
  simp

/-- Witness for C4 at a concrete one-entry cache whose delimiter is the
single character space. -/
theorem persistent_map_roundtrip_witness :
    saveLoad [(("a".data : List Char), "b".data)] = some [("a".data, "b".data)] :=
  persistent_map_roundtrip [("a".data, "b".data)] " ".data
    (by decide) (by decide) (by decide) (by decide)

theorem nextTagAux_some_ext (ext : List Char) :
    ∀ (s : List Char) (inTag inQ : Bool) (oq : Char) (before tag b t r : List Char),
      nextTagAux inTag inQ oq before tag s = some (b, t, r) →
      nextTagAux inTag inQ oq before tag (s ++ ext) = some (b, t, r ++ ext) := by
  intro s
  induction s with
  | nil => intro _ _ _ _ _ _ _ _ h; cases h
  | cons c rest ih =>
      intro inTag inQ oq before tag b t r h
      simp only [nextTagAux, List.cons_append] at h ⊢
      split_ifs at h ⊢ <;>
        first
          | exact ih _ _ _ _ _ _ _ _ h
          | (cases h; rfl)

theorem nextTagAux_some_props :
    ∀ (s : List Char) (inTag inQ : Bool) (oq : Char) (before tag b t r : List Char),
      nextTagAux inTag inQ oq before tag s = some (b, t, r) →
      t ≠ [] ∧ r.length < s.length := by
  intro s
  induction s with
  | nil => intro _ _ _ _ _ _ _ _ h; cases h
  | cons c rest ih =>
      intro inTag inQ oq before tag b t r h
      simp only [nextTagAux] at h
      split_ifs at h <;>
        first
          | (obtain ⟨h1, h2⟩ := ih _ _ _ _ _ _ _ _ h
             exact ⟨h1, by simp only [List.length_cons]; omega⟩)
          | (cases h
             refine ⟨by simp, ?_⟩
             simp only [List.length_cons]
             omega)

/-- C5: the parse always fails with the mismatch error whenever the next
token is a closing tag whose name differs from the tag of the top of the
(text-adjusted) open-element stack, and always fails with the
end-of-document error whenever no further tag can be tokenized, whatever
the open-element stack holds (no partial tree is ever returned). -/
theorem parser_failure :
    (∀ (fuel : Nat) (stack : List Element) (s b ts rem : List Char) (tg : TagRec)
        (top : Element) (rest : List Element),
        nextTag s = (b, ts, rem) →
        parseTag ts = .ok tg →
        tg.tagType = TagType.Close →
        ("<?xml".data.isPrefixOf ts) = false →
        applyText stack b = top :: rest →
        top.tag ≠ tg.tagName →
        fromstringAux (fuel + 1) stack s = .error .mismatchedTags) ∧
    (∀ (fuel : Nat) (stack : List Element) (s b : List Char),
        nextTag s = (b, [], []) →
        fromstringAux (fuel + 1) stack s = .error .unexpectedEnd) := by
  constructor
  · intro fuel stack s b ts rem tg top rest hnext hptag htype hprolog happ hne
    have hts : ts ≠ [] := by
      intro h
      subst h
      rw [show parseTag ([] : List Char) = Except.error XmlError.invalidTag from rfl] at hptag
      exact Except.noConfusion hptag
    have htse : ts.isEmpty = false := by
      cases ts
      · exact absurd rfl hts
      · rfl
    have hstep : fromstringStep stack b ts = .failed .mismatchedTags := by
      unfold fromstringStep
      rw [happ]
      simp only [htse, hprolog, Bool.not_false, Bool.and_self, if_true]
      rw [hptag]
      simp only [htype]
      rw [if_pos hne]
    simp only [fromstringAux, hnext]
    rw [if_neg (by simp [htse])]
    rw [hstep]
  · intro fuel stack s b hnext
    simp only [fromstringAux, hnext]
    rw [if_pos (by simp)]

/-- Witness for C5: the concrete suffix closing b against an open a fails
with the mismatch error, and input with no tag at all fails with the
end-of-document error. -/
theorem parser_failure_witness :
    fromstringAux 5 [Element.mk "a" [] [] none] "</b>".data = .error .mismatchedTags ∧
    fromstringAux 7 [] "plain text, no tags".data = .error .unexpectedEnd :=
  ⟨parser_failure.1 4 [Element.mk "a" [] [] none] "</b>".data [] "</b>".data []
      ⟨"b", TagType.Close, []⟩ (Element.mk "a" [] [] none) []
      rfl rfl rfl (by decide) rfl (by decide),
   parser_failure.2 6 [] "plain text, no tags".data "plain text, no tags".data rfl⟩

theorem fromstringAux_ext :
    ∀ (fuel : Nat) (stack : List Element) (s : List Char) (root : Element)
      (ext : List Char) (fuel2 : Nat),
      s.length < fuel → (s ++ ext).length < fuel2 →
      fromstringAux fuel stack s = .ok root →
      fromstringAux fuel2 stack (s ++ ext) = .ok root := by
  intro fuel
  induction fuel with
  | zero => intro stack s root ext fuel2 h1 _ h3; exact Except.noConfusion h3
  | succ n ih =>
      intro stack s root ext fuel2 hlen hlen2 h
      cases fuel2 with
      | zero =>
          simp only [List.length_append] at hlen2
          omega
      | succ m =>
          rcases hcase : nextTagAux false false ' ' [] [] s with _ | ⟨b, t, r⟩
          · have hnt : nextTag s = (s, [], []) := by unfold nextTag; rw [hcase]
            simp only [fromstringAux, hnt] at h
            simp at h
          · obtain ⟨htne, hrlen⟩ := nextTagAux_some_props s _ _ _ _ _ _ _ _ hcase
            have hnt : nextTag s = (b, t, r) := by unfold nextTag; rw [hcase]
            have hnt2 : nextTag (s ++ ext) = (b, t, r ++ ext) := by
              unfold nextTag
              rw [nextTagAux_some_ext ext s _ _ _ _ _ _ _ _ hcase]
            have htse : t.isEmpty = false := by
              cases t
              · exact absurd rfl htne
              · rfl
            simp only [fromstringAux, hnt] at h
            simp only [fromstringAux, hnt2]
            rw [if_neg (by simp [htse])] at h
            rw [if_neg (by simp [htse])]
            rcases hstep : fromstringStep stack b t with root2 | stack2 | e
            · rw [hstep] at h
              exact h
            · rw [hstep] at h
              refine ih stack2 r root ext m ?_ ?_ h
              · omega
              · simp only [List.length_append] at hlen2 ⊢
                omega
            · rw [hstep] at h
              exact Except.noConfusion h

/-- C10: a document whose prefix parses to a root element still parses to
that same root with arbitrary trailing input appended: the parse returns
the moment the closing tag empties the open-element stack and the trailing
content is never examined. -/
theorem trailing_input_ignored :
    ∀ (doc ext : String) (root : Element),
      fromstring doc = .ok root → fromstring (doc ++ ext) = .ok root := by
  intro doc ext root h
  unfold fromstring at h ⊢
  rw [String.data_append doc ext]
  exact fromstringAux_ext (doc.data.length + 1) [] doc.data root ext.data
    ((doc.data ++ ext.data).length + 1) (by omega) (by omega) h

/-- Witness for C10: a well-formed root followed by garbage that is not
even tokenizable still parses to the root of the prefix. -/
theorem trailing_input_ignored_witness :
    fromstring ("<a></a>" ++ "<<junk") = .ok (Element.mk "a" [] [] none) :=
  trailing_input_ignored "<a></a>" "<<junk" (Element.mk "a" [] [] none) rfl

/-- C8: an identifier with a prior-attempt entry of n in the parsed previous
failure report is written with count n+1 when it fails again; an identifier
with no prior entry is written with count 1; and a concrete report line
carrying download_tries 2 parses back and yields a written count of 3. -/
theorem retry_count_accumulates :
    (∀ (prev : List (List Char × Nat)) (pmcid : List Char) (n : Nat),
        dictGet prev pmcid = some n → triesCount prev pmcid = n + 1) ∧
    (∀ (prev : List (List Char × Nat)) (pmcid : List Char),
        dictGet prev pmcid = none → triesCount prev pmcid = 1) ∧
    (getPrevFailures ["12345678 87654321   2021/05/06    4     2   Fake Journal".data]
        = [("12345678".data, 2)] ∧
     triesCount
        (getPrevFailures ["12345678 87654321   2021/05/06    4     2   Fake Journal".data])
        "12345678".data = 3) := by
  refine ⟨?_, ?_, by decide, by decide⟩
  · intro prev pmcid n h
    simp [triesCount, h]
  · intro prev pmcid h
    simp [triesCount, h]

/-- Witness for C8 at concrete dictionaries. -/
theorem retry_count_accumulates_witness :
    triesCount [(['9'], 2)] ['9'] = 3 ∧ triesCount [] ['7'] = 1 :=
  ⟨retry_count_accumulates.1 [(['9'], 2)] ['9'] 2 rfl,
   retry_count_accumulates.2.1 [] ['7'] rfl⟩

end PdfDownload
